import Mathlib

/-!
Verification development for the Raysid BLE protocol decoder
(`src/raysid/ble_worker.py`).

The Python decoder is shallowly embedded:
* byte strings become `List Nat` (with the predicate `Bytes` stating every
  entry is `< 256`, as is guaranteed by the Python `bytes` type);
* machine arithmetic is mirrored with explicit `% 256`, `% 2^24`, `% 2^32`
  masks exactly where the source masks (`& 0xFF`, `& 0xFFFFFF`, ...);
* the float divisions of the source (`cur_val / float(div)`,
  `temp_raw / 10.0`, `unpacked / 600.0`) are modelled in `ℚ`; for every
  comparison performed by the code the operands are far enough from the
  decision boundaries that IEEE rounding cannot flip the result, so the
  rational model is observationally faithful;
* code that can raise an exception (out-of-range list indexing in
  `_parse_spectrum`, `bytes([size])` in `_wrap_command`) is modelled in
  `Except Unit` / `Option`, with `.error ()` / `none` marking exactly the
  inputs on which the Python raises;
* wall-clock time is modelled in integer milliseconds; the only use is the
  comparison `elapsed > 0.5 s`, i.e. `500 < now - start`.
-/

namespace Raysid

/-- Every entry of the list is a byte value, as guaranteed by Python `bytes`. -/
def Bytes (l : List Nat) : Prop := ∀ b ∈ l, b < 256

/-! ## Checksum engine (`_crc1`, `_crc2`, `_checksum3`) -/

/-- Accumulation loop of `BleWorker._crc1`: consume 4 bytes at a time as a
little-endian 32-bit word built with shifts and bitwise or, a tail of 3, 2 or
1 bytes packed the same way; the final mask `& 0xFFFFFFFF` is applied in
`crc1`. -/
def crc1Loop : List Nat → Nat
  | a :: b :: c :: d :: rest =>
      ((d <<< 24) ||| (c <<< 16) ||| (b <<< 8) ||| a) + crc1Loop rest
  | [a, b, c] => (c <<< 16) ||| (b <<< 8) ||| a
  | [a, b] => (b <<< 8) ||| a
  | [a] => a
  | [] => 0

/-- `BleWorker._crc1`: running sum masked to 32 bits. -/
def crc1 (data : List Nat) : Nat := crc1Loop data % 4294967296

/-- `BleWorker._crc2`: XOR of all bytes, masked to 8 bits. -/
def crc2 (data : List Nat) : Nat := (data.foldl (fun o b => o ^^^ b) 0) % 256

/-- One 3-byte big-endian word of `BleWorker._checksum3`; missing trailing
bytes contribute nothing, exactly like the guarded `|=` in the source. -/
def chkWord (a b c : Nat) : Nat :=
  ((a % 256) <<< 16) ||| ((b % 256) <<< 8) ||| (c % 256)

/-- Accumulation loop of `BleWorker._checksum3`: partition into 3-byte
big-endian words (the final word zero-padded) and XOR them. -/
def checksum3Loop : List Nat → Nat
  | a :: b :: c :: rest => chkWord a b c ^^^ checksum3Loop rest
  | [a, b] => chkWord a b 0
  | [a] => chkWord a 0 0
  | [] => 0

/-- `BleWorker._checksum3`: the XOR of the 3-byte words, masked to 24 bits. -/
def checksum3 (data : List Nat) : Nat := checksum3Loop data % 16777216

/-! ## Command encoder (`_wrap_command`) -/

/-- `int.to_bytes(4, "big")` for a value below `2^32`. -/
def be4 (n : Nat) : List Nat :=
  [n / 16777216 % 256, n / 65536 % 256, n / 256 % 256, n % 256]

/-- `BleWorker._wrap_command`.  The Python builds
`packet = [0xFF, crc2(inner)] + inner` with `inner = [0xEE] + crc1_BE4 +
payload`, then appends `bytes([len(packet) + 1])`.  `bytes([v])` raises
`ValueError` for `v > 255`, which happens exactly when the payload is longer
than 247 bytes; that failure is modelled by `none`. -/
def wrapCommand (payload : List Nat) : Option (List Nat) :=
  let c1 := crc1 payload
  let inner := 0xEE :: (be4 c1 ++ payload)
  let c2 := crc2 inner
  let packet := 0xFF :: c2 :: inner
  let size := packet.length + 1
  if size ≤ 255 then some (packet ++ [size]) else none

/-! ## Inbound checksum validators -/

/-- `BleWorker._validate_spectrum_checksum`: frames shorter than 6 bytes are
rejected; otherwise Xor24 over all bytes except the last 3 is compared with
the last 3 bytes read as a little-endian 24-bit integer (built in the source
as `(chk[2] << 16) | (chk[1] << 8) | chk[0]`). -/
def validateSpectrumChecksum (frame : List Nat) : Bool :=
  if frame.length < 6 then false
  else
    let chk := frame.drop (frame.length - 3)
    let expected := (chk.getD 2 0 <<< 16) ||| (chk.getD 1 0 <<< 8) ||| chk.getD 0 0
    checksum3 (frame.take (frame.length - 3)) == expected

/-- `BleWorker._validate_cps_checksum2b`: packets shorter than 7 bytes are
rejected; otherwise Xor24 over `packet[1:-3]` is computed,
`calculated.to_bytes(3, "big")[:2][::-1]` (that is, the byte list
`[mid, high]`) is compared with `packet[-4:-2]`. -/
def validateCpsChecksum2b (packet : List Nat) : Bool :=
  if packet.length < 7 then false
  else
    let calculated := checksum3 ((packet.drop 1).take (packet.length - 4))
    let calc2b := [calculated / 256 % 256, calculated / 65536 % 256]
    let exp2b := (packet.drop (packet.length - 4)).take 2
    calc2b == exp2b

/-! ## Spec-side definitions used to state the claims about the encoder and
the count-rate validator (translated from the words of the specification, to
be compared with the source-derived definitions above) -/

/-- A byte list read as one little-endian word (any length). -/
def leWord (l : List Nat) : Nat := l.foldr (fun b acc => b + 256 * acc) 0

/-- Sum32 as the specification words it: the payload read as a stream of
little-endian 32-bit words, a tail of 1-3 bytes packed the same way. -/
def sum32SpecLoop : List Nat → Nat
  | a :: b :: c :: d :: rest => leWord [a, b, c, d] + sum32SpecLoop rest
  | rest => leWord rest

/-- Sum32: the word sum modulo `2^32`. -/
def sum32Spec (p : List Nat) : Nat := sum32SpecLoop p % 4294967296

/-- XorByte as the specification words it: the XOR of all bytes. -/
def xorByteSpec (l : List Nat) : Nat := l.foldl (fun o b => o ^^^ b) 0

/-- The outbound frame shape asserted by claim C7:
`inner = [0xEE] ++ Sum32(payload) as 4 big-endian bytes ++ payload`,
`frame = [0xFF, XorByte(inner)] ++ inner ++ [trailing length byte]`. -/
def claimC7frame (payload : List Nat) : List Nat :=
  let inner := 0xEE :: (be4 (sum32Spec payload) ++ payload)
  let front := 0xFF :: xorByteSpec inner :: inner
  front ++ [front.length + 1]

/-- The count-rate acceptance condition exactly as claim C2 states it: the
low 2 bytes of the computed 24-bit value, in reversed byte order, equal the
frame bytes in the window `[len-4, len-3)`. -/
def claimC2accept (packet : List Nat) : Bool :=
  let calculated := checksum3 ((packet.drop 1).take (packet.length - 4))
  let low2rev := [calculated % 256, calculated / 256 % 256]
  let window :=
    (packet.drop (packet.length - 4)).take ((packet.length - 3) - (packet.length - 4))
  low2rev == window

/-! ## Decoded records -/

/-- The tagged union of records emitted by the decoder.  The spectrum variant
carries the bin map as the chronological list of `(channel, value)` insertions
performed on the Python dict `bins`; the channels are proved pairwise distinct
(strictly consecutive), so this list determines the dict exactly. -/
inductive Record where
  | cps (rate doseRate : ℚ)
  | battery (level : Nat) (temperature : ℚ) (isCharging : Bool)
  | spectrum (writes : List (Nat × ℚ)) (lastChannel : Nat) (div : Nat)
deriving DecidableEq, Repr, Inhabited

/-- The bin-map insertions of a spectrum record. -/
def specWrites : Record → List (Nat × ℚ)
  | .spectrum ws _ _ => ws
  | _ => []

/-- The channel indices present in the bin map of a spectrum record. -/
def specChannels (r : Record) : List Nat := (specWrites r).map Prod.fst

/-! ## Count-rate parser (`_parse_cps`) -/

/-- `BleWorker._unpack_value`: `res = v % 6000` multiplied by ten,
`v / 6000` times. -/
def unpackValue (v : Nat) : Nat := v % 6000 * 10 ^ (v / 6000)

/-- The data-set loop of `_parse_cps`: for `k` below the number of sets, stop
as soon as `k*3+4` falls outside the frame, otherwise read
`(dataType, rawValue)` and update the `(cps, doseRate)` accumulators. -/
def cpsLoop (frame : List Nat) : Nat → Nat → Option ℚ × Option ℚ → Option ℚ × Option ℚ
  | 0, _, st => st
  | r + 1, k, (c, d) =>
    if k * 3 + 4 < frame.length then
      let dataType := frame.getD (k * 3 + 2) 0 % 256
      let rawValue := ((frame.getD (k * 3 + 4) 0 % 256) <<< 8) ||| (frame.getD (k * 3 + 3) 0 % 256)
      let value : ℚ := (unpackValue rawValue : ℚ) / 600
      let st2 :=
        if dataType = 0 then (some value, d)
        else if dataType = 1 then (c, some (value / 100)) else (c, d)
      cpsLoop frame r (k + 1) st2
    else (c, d)

/-- `BleWorker._parse_cps` (type 0x17): length and checksum gates, the
overload gate, then up to 2 or 12 data sets; missing fields default to 0. -/
def parseCps (frame : List Nat) : Option Record :=
  if frame.length < 13 then none
  else if frame.getD 1 0 ≠ 0x17 then none
  else if validateCpsChecksum2b frame = false then none
  else
    let overload := if frame.getD 0 0 = 18 ∧ 14 < frame.length then frame.getD 14 0 % 256 else 0
    if 1 < overload then none
    else
      let sets := if frame.length ≤ 20 then 2 else 12
      let st := cpsLoop frame sets 0 (none, none)
      some (.cps (st.1.getD 0) (st.2.getD 0))

/-! ## Status parser (`_parse_battery`) -/

/-- `BleWorker._parse_battery` (type 0x02): length and type gates, then the
plausibility gate `level ≤ 100` and `-40 ≤ temperature ≤ 80`. -/
def parseBattery (frame : List Nat) : Option Record :=
  if frame.length < 6 then none
  else if frame.getD 1 0 ≠ 0x02 then none
  else
    let tempRaw := (frame.getD 2 0 % 256) ||| ((frame.getD 3 0 % 256) <<< 8)
    let temperature : ℚ := (tempRaw : ℚ) / 10 - 100
    let level := frame.getD 4 0 % 256
    let isCharging := decide (frame.getD 5 0 % 256 ≠ 0)
    if 100 < level ∨ temperature < -40 ∨ 80 < temperature then none
    else some (.battery level temperature isCharging)

/-! ## Spectrum differential decoder (`_parse_spectrum`) -/

/-- Sign extension of a 4-bit nibble (`if diff > 7: diff -= 16`). -/
def sext4 (n : Nat) : Int := if 7 < n then (n : Int) - 16 else n

/-- Sign extension of an 8-bit value. -/
def sext8 (n : Nat) : Int := if 127 < n then (n : Int) - 256 else n

/-- Sign extension of a 12-bit value. -/
def sext12 (n : Nat) : Int := if 2047 < n then (n : Int) - 4096 else n

/-- Sign extension of a 16-bit value. -/
def sext16 (n : Nat) : Int := if 32767 < n then (n : Int) - 65536 else n

/-- Sign extension of a 24-bit value. -/
def sext24 (n : Nat) : Int := if 8388607 < n then (n : Int) - 16777216 else n

/-- State threaded through the decode loop of `_parse_spectrum`: payload
cursor, channel cursor, accumulator, and the `(channel, accumulator)` pairs
written to `bins` (division by the compression divisor is applied when the
record is built). -/
structure DRes where
  pos : Nat
  x : Nat
  cur : Int
  ws : List (Nat × Int)
deriving DecidableEq, Repr

/-- Point type 0 of `_parse_spectrum`: up to `rem` 4-bit signed deltas, two
per byte, high nibble first. -/
def decode0 (frame : List Nat) (limit : Nat) : Nat → Nat → Nat → Int → DRes
  | 0, pos, x, cur => ⟨pos, x, cur, []⟩
  | rem + 1, pos, x, cur =>
    if pos < limit ∧ pos < frame.length then
      let bytev := frame.getD pos 0
      let cur1 := cur + sext4 (bytev % 256 / 16)
      match rem with
      | 0 => ⟨pos + 1, x + 1, cur1, [(x, cur1)]⟩
      | rem2 + 1 =>
        let cur2 := cur1 + sext4 (bytev % 256 % 16)
        let r := decode0 frame limit rem2 (pos + 1) (x + 2) cur2
        ⟨r.pos, r.x, r.cur, (x, cur1) :: (x + 1, cur2) :: r.ws⟩
    else ⟨pos, x, cur, []⟩

/-- Point type 1 of `_parse_spectrum`: up to `rem` 8-bit signed deltas, one
per byte. -/
def decode1 (frame : List Nat) (limit : Nat) : Nat → Nat → Nat → Int → DRes
  | 0, pos, x, cur => ⟨pos, x, cur, []⟩
  | rem + 1, pos, x, cur =>
    if pos < limit ∧ pos < frame.length then
      let cur1 := cur + sext8 (frame.getD pos 0 % 256)
      let r := decode1 frame limit rem (pos + 1) (x + 1) cur1
      ⟨r.pos, r.x, r.cur, (x, cur1) :: r.ws⟩
    else ⟨pos, x, cur, []⟩

/-- Point type 2 of `_parse_spectrum`: pairs of 12-bit signed deltas packed
into 3 bytes (first delta from the top 12 bits, second from the bottom 12). -/
def decode2 (frame : List Nat) (limit : Nat) : Nat → Nat → Nat → Int → DRes
  | 0, pos, x, cur => ⟨pos, x, cur, []⟩
  | rem + 1, pos, x, cur =>
    if pos + 1 < limit ∧ pos + 1 < frame.length then
      let b0 := frame.getD pos 0
      let b1 := frame.getD (pos + 1) 0
      let cur1 := cur + sext12 (((b0 <<< 4) ||| (b1 >>> 4 % 16)) % 4096)
      match rem with
      | 0 => ⟨pos + 2, x + 1, cur1, [(x, cur1)]⟩
      | rem2 + 1 =>
        if pos + 2 < limit ∧ pos + 2 < frame.length then
          let b2 := frame.getD (pos + 2) 0
          let cur2 := cur1 + sext12 (((b1 % 16) <<< 8) ||| (b2 % 256))
          let r := decode2 frame limit rem2 (pos + 3) (x + 2) cur2
          ⟨r.pos, r.x, r.cur, (x, cur1) :: (x + 1, cur2) :: r.ws⟩
        else ⟨pos + 2, x + 1, cur1, [(x, cur1)]⟩
    else ⟨pos, x, cur, []⟩

/-- Point type 3 of `_parse_spectrum`: up to `rem` 16-bit signed
little-endian deltas, two bytes each. -/
def decode3 (frame : List Nat) (limit : Nat) : Nat → Nat → Nat → Int → DRes
  | 0, pos, x, cur => ⟨pos, x, cur, []⟩
  | rem + 1, pos, x, cur =>
    if pos + 1 < limit ∧ pos + 1 < frame.length then
      let cur1 := cur + sext16 (((frame.getD (pos + 1) 0 % 256) <<< 8) ||| (frame.getD pos 0 % 256))
      let r := decode3 frame limit rem (pos + 1 + 1) (x + 1) cur1
      ⟨r.pos, r.x, r.cur, (x, cur1) :: r.ws⟩
    else ⟨pos, x, cur, []⟩

/-- The outer `while` of `_parse_spectrum`.  `fuel` only bounds the number of
iterations: every iteration strictly increases `pos` and requires
`pos < limit`, so any `fuel > limit` is beyond what the loop can consume and
the definition then agrees exactly with the unbounded loop.  A control byte
`b = 0` is the special case `(pointType 4, count 1)` (24-bit little-endian
signed delta); otherwise `pointType = b / 64` and `count = b % 64`; an
unrecognized point type ends the loop. -/
def decodeLoop (frame : List Nat) (limit maxCh : Nat) : Nat → Nat → Nat → Int → DRes
  | 0, pos, x, cur => ⟨pos, x, cur, []⟩
  | fuel + 1, pos, x, cur =>
    if pos < limit ∧ pos < frame.length ∧ x < maxCh then
      let b := frame.getD pos 0
      if b = 0 then
        if pos + 3 < limit ∧ pos + 3 < frame.length then
          let d := sext24 ((frame.getD (pos + 3) 0 <<< 16) ||| (frame.getD (pos + 2) 0 <<< 8) |||
            frame.getD (pos + 1) 0)
          let cur1 := cur + d
          let r := decodeLoop frame limit maxCh fuel (pos + 4) (x + 1) cur1
          ⟨r.pos, r.x, r.cur, (x, cur1) :: r.ws⟩
        else ⟨pos + 1, x, cur, []⟩
      else
        let pt := b % 256 / 64
        let cnt := b % 256 % 64
        if pt = 0 then
          let r1 := decode0 frame limit cnt (pos + 1) x cur
          let r2 := decodeLoop frame limit maxCh fuel r1.pos r1.x r1.cur
          ⟨r2.pos, r2.x, r2.cur, r1.ws ++ r2.ws⟩
        else if pt = 1 then
          let r1 := decode1 frame limit cnt (pos + 1) x cur
          let r2 := decodeLoop frame limit maxCh fuel r1.pos r1.x r1.cur
          ⟨r2.pos, r2.x, r2.cur, r1.ws ++ r2.ws⟩
        else if pt = 2 then
          let r1 := decode2 frame limit cnt (pos + 1) x cur
          let r2 := decodeLoop frame limit maxCh fuel r1.pos r1.x r1.cur
          ⟨r2.pos, r2.x, r2.cur, r1.ws ++ r2.ws⟩
        else if pt = 3 then
          let r1 := decode3 frame limit cnt (pos + 1) x cur
          let r2 := decodeLoop frame limit maxCh fuel r1.pos r1.x r1.cur
          ⟨r2.pos, r2.x, r2.cur, r1.ws ++ r2.ws⟩
        else ⟨pos + 1, x, cur, []⟩
    else ⟨pos, x, cur, []⟩

/-- The compression divisor of a spectrum type tag (1, 3, or 9). -/
def divOf (ptype : Nat) : Nat := if ptype = 0x31 then 3 else if ptype = 0x32 then 9 else 1

/-- Start channel of a spectrum frame, as the source computes it:
`frame[2] | (frame[3] << 8)`. -/
def startChOf (frame : List Nat) : Nat := frame.getD 2 0 ||| (frame.getD 3 0 <<< 8)

/-- Initial absolute value of a spectrum frame, as the source computes it:
`(frame[6] << 16) | (frame[5] << 8) | frame[4]`. -/
def curValOf (frame : List Nat) : Nat :=
  (frame.getD 6 0 <<< 16) ||| (frame.getD 5 0 <<< 8) ||| frame.getD 4 0

/-- `BleWorker._parse_spectrum`.  `.error ()` marks exactly the inputs on
which the Python raises `IndexError`: an empty frame (`frame[0]`), or a frame
that passes the checksum and start-channel gates but has no byte at offset 6
(`frame[6]`) — that is, a valid 6-byte frame.  The bin map is reported as the
list of dict insertions; `lastChannel` is the final channel cursor. -/
def parseSpectrumE (frame : List Nat) : Except Unit (Option Record) :=
  if frame.length = 0 then .error ()
  else
    let b0 := frame.getD 0 0
    let flen := if b0 = 0 then 256 else b0
    if validateSpectrumChecksum frame = false then .ok none
    else
      let limit := flen - 3
      let div := divOf (frame.getD 1 0)
      if 2000 < startChOf frame then .ok none
      else if frame.length < 7 then .error ()
      else
        let curVal : Int := (curValOf frame : Nat)
        let x0 := startChOf frame / div
        let maxCh := 1800 / div + 10
        let r := decodeLoop frame limit maxCh (limit + 1) 7 (x0 + 1) curVal
        .ok (some (.spectrum
          (((x0, curVal) :: r.ws).map (fun p => (p.1, (p.2 : ℚ) / (div : ℚ)))) r.x div))

/-- Recognized spectrum type tags (`BleWorker.SPECTRUM_TYPES`). -/
def isSpectrumType (t : Nat) : Bool := t == 0x30 || t == 0x31 || t == 0x32

/-- `BleWorker._parse_frame`: frames shorter than 4 bytes are dropped,
otherwise dispatch on the type byte. -/
def parseFrameE (frame : List Nat) : Except Unit (Option Record) :=
  if frame.length < 4 then .ok none
  else if frame.getD 1 0 = 0x17 then .ok (parseCps frame)
  else if frame.getD 1 0 = 0x02 then .ok (parseBattery frame)
  else if isSpectrumType (frame.getD 1 0) then parseSpectrumE frame
  else .ok none

/-! ## Frame reassembler (`_notification_handler`) -/

/-- Reassembler state: the spectrum buffer, the expected total length
(0 = idle), and the start timestamp in milliseconds. -/
structure RState where
  buffer : List Nat
  expectedLen : Nat
  startTime : Nat
deriving DecidableEq, Repr

/-- The new-packet heuristic of `_notification_handler`: at least 2 bytes, a
recognized type tag, and a declared length (0 meaning 256) in `[4, 256]`. -/
def isNewPacket (raw : List Nat) : Bool :=
  if 2 ≤ raw.length then
    let lb := raw.getD 0 0
    let pt := raw.getD 1 0
    if isSpectrumType pt || pt == 0x02 || pt == 0x17 then
      let declared := if lb = 0 then 256 else lb
      decide (4 ≤ declared ∧ declared ≤ 256)
    else false
  else false

/-- Chunk handling of `BleWorker._notification_handler` after the two reset
checks: the assembling path (append, then completion slicing), the spectrum
buffering start, and the direct-parse path. -/
def handleCore (s : RState) (now : Nat) (raw : List Nat) :
    Except Unit (RState × List Record) :=
  if 0 < s.expectedLen then
    let buf := s.buffer ++ raw
    if s.expectedLen ≤ buf.length then
      match parseFrameE (buf.take s.expectedLen) with
      | .error e => .error e
      | .ok rec? => .ok (RState.mk [] 0 s.startTime, rec?.toList)
    else .ok (RState.mk buf s.expectedLen s.startTime, [])
  else if 2 ≤ raw.length ∧ isSpectrumType (raw.getD 1 0) = true then
    let declared := if raw.getD 0 0 = 0 then 256 else raw.getD 0 0
    .ok (RState.mk raw declared now, [])
  else
    match parseFrameE raw with
    | .error e => .error e
    | .ok rec? => .ok (s, rec?.toList)

/-- `BleWorker._notification_handler` for one chunk arriving at `now`
(milliseconds): first the stale-buffer timeout reset (more than 500 ms since
the pending frame started), then the desynchronization reset (a chunk longer
than 10 bytes that itself looks like a new packet), then `handleCore`.
Returns the new state and the records emitted for this chunk, or `.error ()`
if the Python would raise. -/
def handleNotification (s : RState) (now : Nat) (raw : List Nat) :
    Except Unit (RState × List Record) :=
  let s1 := if 0 < s.expectedLen ∧ 500 < now - s.startTime then
    RState.mk [] 0 s.startTime else s
  let s2 := if 0 < s1.expectedLen ∧ isNewPacket raw = true ∧ 10 < raw.length then
    RState.mk [] 0 s1.startTime else s1
  handleCore s2 now raw

/-- Feed a sequence of `(time, chunk)` notifications through the handler,
collecting all emitted records. -/
def runChunks : RState → List (Nat × List Nat) → Except Unit (RState × List Record)
  | s, [] => .ok (s, [])
  | s, (t, c) :: rest =>
    match handleNotification s t c with
    | .error e => .error e
    | .ok (s1, recs) =>
      match runChunks s1 rest with
      | .error e => .error e
      | .ok (s2, recs2) => .ok (s2, recs ++ recs2)

end Raysid

namespace Raysid

unseal Rat.mul Rat.inv Rat.add Rat.sub

instance {A B : Type} [DecidableEq A] [DecidableEq B] : DecidableEq (Except A B) := fun a b =>
  match a, b with
  | .error x, .error y =>
    if h : x = y then .isTrue (by rw [h]) else .isFalse (fun he => h (Except.error.inj he))
  | .ok x, .ok y =>
    if h : x = y then .isTrue (by rw [h]) else .isFalse (fun he => h (Except.ok.inj he))
  | .error _, .ok _ => .isFalse (by intro h; cases h)
  | .ok _, .error _ => .isFalse (by intro h; cases h)

instance (l : List Nat) : Decidable (Bytes l) := by
  unfold Bytes
  infer_instance

/-! ## Concrete inputs used by the counterexamples and witnesses -/

/-- Data part of a minimal type-0x31 spectrum frame: declared length 10,
start channel 3, initial value 6, no coding groups. -/
def cex5core : List Nat := [10, 0x31, 3, 0, 6, 0, 0]

/-- The frame `cex5core` completed with its own valid Xor24 checksum. -/
def cex5frame : List Nat := cex5core ++
  [checksum3 cex5core % 256, checksum3 cex5core / 256 % 256, checksum3 cex5core / 65536]

/-- Data part of a minimal type-0x30 spectrum frame with start channel 2000. -/
def cex6core : List Nat := [10, 0x30, 0xD0, 0x07, 1, 0, 0]

/-- The frame `cex6core` completed with its own valid Xor24 checksum. -/
def cex6frame : List Nat := cex6core ++
  [checksum3 cex6core % 256, checksum3 cex6core / 256 % 256, checksum3 cex6core / 65536]

/-- A 4-byte spectrum-type chunk whose bytes [2,3] read as 2001: used to
witness the start-channel rejection path. -/
def c5wframe : List Nat := [10, 0x30, 0xD1, 0x07]

/-- Witness frame for the spectrum checksum claim: declared length 10,
type 0x30, start channel 0, initial value 9. -/
def c8core : List Nat := [10, 0x30, 0, 0, 9, 0, 0]

/-- The frame `c8core` completed with its own valid Xor24 checksum. -/
def c8frame : List Nat := c8core ++
  [checksum3 c8core % 256, checksum3 c8core / 256 % 256, checksum3 c8core / 65536]

/-- A 13-byte count-rate frame that the source accepts: the Xor24 value over
`frame[1:-3]` is `0x170000`, so `[mid, high] = [0x00, 0x17]` matches bytes
9 and 10. -/
def cex2frame : List Nat := [13, 0x17, 0, 0, 0, 0, 0, 0, 0, 0, 0x17, 0, 0]

/-- Data part of a full 256-byte type-0x30 spectrum frame (length byte 0
meaning 256): start channel 0, initial value 1, zero payload. -/
def cex3core : List Nat := [0, 0x30, 0, 0, 1, 0, 0] ++ List.replicate 246 0

/-- The 256-byte frame `cex3core` completed with its own valid checksum. -/
def cex3frame : List Nat := cex3core ++
  [checksum3 cex3core % 256, checksum3 cex3core / 256 % 256, checksum3 cex3core / 65536]

/-- The record decoded from `cex3frame` (extracted from the parser itself). -/
def c3record : Record :=
  match parseFrameE cex3frame with
  | .ok (some r) => r
  | _ => .cps 0 0

/-- A reassembler state with a 256-byte spectrum assembly in progress. -/
def s40 : RState := RState.mk [0, 0x30, 0] 256 0

/-- A 10-byte chunk that satisfies the new-packet heuristic (declared
length 10, type 0x17). -/
def c40 : List Nat := [10, 0x17, 0, 0, 0, 0, 0, 0, 0, 0]

/-- An 11-byte chunk that satisfies the new-packet heuristic. -/
def c41 : List Nat := [11, 0x17, 0, 0, 0, 0, 0, 0, 0, 0, 0]

/-! ## Arithmetic helper lemmas: bit-packing expressions of the source
versus their plain arithmetic reading -/

theorem testBit_mul_pow_add (u v k i : Nat) (hv : v < 2 ^ k) :
    (u * 2 ^ k + v).testBit i = if i < k then v.testBit i else u.testBit (i - k) := by
  rcases Nat.lt_or_ge i k with h | h
  · rw [if_pos h, Nat.testBit_to_div_mod, Nat.testBit_to_div_mod]
    have hsplit : u * 2 ^ k + v = v + 2 ^ i * (u * 2 ^ (k - i)) := by
      have : 2 ^ i * 2 ^ (k - i) = 2 ^ k := by
        rw [← pow_add]
        congr 1
        omega
      calc u * 2 ^ k + v = v + u * (2 ^ i * 2 ^ (k - i)) := by rw [this]; ring
        _ = v + 2 ^ i * (u * 2 ^ (k - i)) := by ring
    rw [hsplit, Nat.add_mul_div_left _ _ (Nat.pos_pow_of_pos i (by norm_num))]
    have hpow : 2 ^ (k - i) = 2 ^ (k - i - 1) * 2 := by
      rw [← pow_succ]
      congr 1
      omega
    have : u * 2 ^ (k - i) = u * 2 ^ (k - i - 1) * 2 := by rw [hpow]; ring
    rw [this, Nat.add_mul_mod_self_right]
  · rw [if_neg (by omega), Nat.testBit_to_div_mod, Nat.testBit_to_div_mod]
    have h2 : 2 ^ i = 2 ^ k * 2 ^ (i - k) := by
      rw [← pow_add]
      congr 1
      omega
    rw [h2, ← Nat.div_div_eq_div_mul]
    have : (u * 2 ^ k + v) / 2 ^ k = u := by
      rw [show u * 2 ^ k + v = v + 2 ^ k * u by ring,
        Nat.add_mul_div_left _ _ (Nat.pos_pow_of_pos k (by norm_num)),
        Nat.div_eq_of_lt hv]
      omega
    rw [this]

theorem shl_lor_eq_add (u k v : Nat) (hv : v < 2 ^ k) : (u <<< k) ||| v = u * 2 ^ k + v := by
  apply Nat.eq_of_testBit_eq
  intro i
  rw [Nat.testBit_lor, Nat.testBit_shiftLeft, testBit_mul_pow_add u v k i hv]
  rcases Nat.lt_or_ge i k with h | h
  · rw [if_pos h]
    simp [Nat.not_le.mpr h]
  · rw [if_neg (by omega)]
    have hvi : v.testBit i = false :=
      Nat.testBit_lt_two_pow (lt_of_lt_of_le hv (Nat.pow_le_pow_right (by norm_num) h))
    simp [h, hvi]

theorem lor_byte2 (b a : Nat) (ha : a < 256) : (b <<< 8) ||| a = 256 * b + a := by
  have := shl_lor_eq_add b 8 a (by norm_num; omega)
  rw [this]; ring

theorem lor2_flip (a b : Nat) (ha : a < 256) : a ||| (b <<< 8) = a + 256 * b := by
  rw [Nat.lor_comm, lor_byte2 b a ha]; ring

theorem lor_byte3 (c b a : Nat) (hb : b < 256) (ha : a < 256) :
    (c <<< 16) ||| (b <<< 8) ||| a = 65536 * c + 256 * b + a := by
  have h1 : (c <<< 16) ||| (b <<< 8) = c * 65536 + b * 256 := by
    have hlt : b <<< 8 < 2 ^ 16 := by rw [Nat.shiftLeft_eq]; norm_num; omega
    have := shl_lor_eq_add c 16 (b <<< 8) hlt
    rw [this, Nat.shiftLeft_eq]; norm_num
  have h2 : c * 65536 + b * 256 = (c * 256 + b) <<< 8 := by
    rw [Nat.shiftLeft_eq]; norm_num; ring
  rw [h1, h2, lor_byte2 _ _ ha]; ring

theorem lor_byte4 (d c b a : Nat) (hc : c < 256) (hb : b < 256) (ha : a < 256) :
    (d <<< 24) ||| (c <<< 16) ||| (b <<< 8) ||| a =
      16777216 * d + 65536 * c + 256 * b + a := by
  have h1 : (d <<< 24) ||| (c <<< 16) = d * 16777216 + c * 65536 := by
    have hlt : c <<< 16 < 2 ^ 24 := by rw [Nat.shiftLeft_eq]; norm_num; omega
    have := shl_lor_eq_add d 24 (c <<< 16) hlt
    rw [this, Nat.shiftLeft_eq]; norm_num
  have h2 : d * 16777216 + c * 65536 = (d * 256 + c) <<< 16 := by
    rw [Nat.shiftLeft_eq]; norm_num; ring
  have h3 : ((d * 256 + c) <<< 16) ||| (b <<< 8) = (d * 256 + c) * 65536 + b * 256 := by
    have hlt : b <<< 8 < 2 ^ 16 := by rw [Nat.shiftLeft_eq]; norm_num; omega
    have := shl_lor_eq_add (d * 256 + c) 16 (b <<< 8) hlt
    rw [this, Nat.shiftLeft_eq]; norm_num
  have h4 : (d * 256 + c) * 65536 + b * 256 = ((d * 256 + c) * 256 + b) <<< 8 := by
    rw [Nat.shiftLeft_eq]; norm_num; ring
  rw [h1, h2, h3, h4, lor_byte2 _ _ ha]; ring

end Raysid

namespace Raysid

/-! ## List and byte helper lemmas -/

theorem bytes_tail {a : Nat} {l : List Nat} (hb : Bytes (a :: l)) : Bytes l :=
  fun b h => hb b (List.mem_cons_of_mem a h)

theorem bytes_head {a : Nat} {l : List Nat} (hb : Bytes (a :: l)) : a < 256 :=
  hb a (List.mem_cons_self a l)

theorem getD_lt_of_bytes {l : List Nat} (hb : Bytes l) (i : Nat) : l.getD i 0 < 256 := by
  rcases Nat.lt_or_ge i l.length with h | h
  · rw [List.getD_eq_getElem l 0 h]
    exact hb _ (List.getElem_mem h)
  · have hz : l.getD i 0 = 0 := by simp [List.getD, List.getElem?_eq_none, h]
    rw [hz]
    norm_num

theorem getD_drop (l : List Nat) (n i : Nat) : (l.drop n).getD i 0 = l.getD (n + i) 0 := by
  simp [List.getD, List.getElem?_drop]

theorem drop_take_two (l : List Nat) (k : Nat) (h : k + 2 ≤ l.length) :
    (l.drop k).take 2 = [l.getD k 0, l.getD (k + 1) 0] := by
  have h1 : k < l.length := by omega
  have h2 : k + 1 < l.length := by omega
  rw [List.drop_eq_getElem_cons h1, List.drop_eq_getElem_cons h2,
    List.getD_eq_getElem l 0 h1, List.getD_eq_getElem l 0 h2]
  rfl

/-! ## Checksum engine lemmas -/

theorem foldl_xor_lt (l : List Nat) (hb : Bytes l) (acc : Nat) (hacc : acc < 256) :
    l.foldl (fun o b => o ^^^ b) acc < 256 := by
  induction l generalizing acc with
  | nil => simpa using hacc
  | cons a t ih =>
    simp only [List.foldl_cons]
    refine ih (bytes_tail hb) _ ?_
    have h8 : (256 : Nat) = 2 ^ 8 := by norm_num
    rw [h8] at hacc ⊢
    exact Nat.xor_lt_two_pow hacc (h8 ▸ bytes_head hb)

/-- `_crc2` computes exactly the XorByte of the specification on byte
input (the final `& 0xFF` is the identity). -/
theorem crc2_eq_xorByteSpec (l : List Nat) (hb : Bytes l) : crc2 l = xorByteSpec l := by
  unfold crc2 xorByteSpec
  exact Nat.mod_eq_of_lt (foldl_xor_lt l hb 0 (by norm_num))

/-- The `_crc1` accumulation loop computes exactly the little-endian word sum
of the specification on byte input. -/
theorem crc1Loop_eq_sum32 (l : List Nat) (hb : Bytes l) : crc1Loop l = sum32SpecLoop l := by
  induction l using crc1Loop.induct with
  | case1 a b c d rest ih =>
    have ha := bytes_head hb
    have hb2 := bytes_head (bytes_tail hb)
    have hc := bytes_head (bytes_tail (bytes_tail hb))
    have hrest := bytes_tail (bytes_tail (bytes_tail (bytes_tail hb)))
    simp only [crc1Loop, sum32SpecLoop, ih hrest, leWord, List.foldr]
    rw [lor_byte4 d c b a hc hb2 ha]
    ring
  | case2 a b c =>
    have ha := bytes_head hb
    have hb2 := bytes_head (bytes_tail hb)
    simp only [crc1Loop, sum32SpecLoop, leWord, List.foldr]
    rw [lor_byte3 c b a hb2 ha]
    ring
  | case3 a b =>
    have ha := bytes_head hb
    simp only [crc1Loop, sum32SpecLoop, leWord, List.foldr]
    rw [lor_byte2 b a ha]
    ring
  | case4 a =>
    simp [crc1Loop, sum32SpecLoop, leWord]
  | case5 =>
    simp [crc1Loop, sum32SpecLoop, leWord]

theorem crc1_eq_sum32Spec (l : List Nat) (hb : Bytes l) : crc1 l = sum32Spec l := by
  unfold crc1 sum32Spec
  rw [crc1Loop_eq_sum32 l hb]

end Raysid

namespace Raysid

unseal Rat.mul Rat.inv Rat.add Rat.sub

/-! ## Claim C7: command-frame encoding -/

set_option maxRecDepth 4000 in
/-- Claim C7 (counterexample to the universal claim): for the 248-byte
payload the source raises `ValueError` in `bytes([size])` (the
self-referential length byte would be 256), so no outbound frame is encoded
at all, contradicting the claim for this payload. -/
theorem c7_counterexample : wrapCommand (List.replicate 248 0) = none := by decide

/-- Claim C7 (amended): for every command payload of length at most 247
bytes, the encoded outbound frame equals
`[0xFF, XorByte(inner)] ++ inner ++ [trailing length byte]` with
`inner = [0xEE] ++ Sum32(payload) as 4 big-endian bytes ++ payload`, where
Sum32 is the little-endian 32-bit word sum modulo `2^32` and XorByte the XOR
of all bytes of `inner`; the trailing byte equals the total length of the
completed frame.  (Payloads longer than 247 bytes cannot be encoded: the
self-referential length byte overflows `bytes([...])`.) -/
theorem c7_amended (p : List Nat) (hb : Bytes p) (hlen : p.length ≤ 247) :
    wrapCommand p = some (claimC7frame p) ∧
      (claimC7frame p).getLast? = some (claimC7frame p).length := by
  have hinner : Bytes (0xEE :: (be4 (crc1 p) ++ p)) := by
    intro b hbm
    rcases List.mem_cons.mp hbm with h | h
    · rw [h]; norm_num
    · rcases List.mem_append.mp h with h2 | h2
      · simp only [be4, List.mem_cons, List.not_mem_nil, or_false] at h2
        rcases h2 with rfl | rfl | rfl | rfl <;> exact Nat.mod_lt _ (by norm_num)
      · exact hb b h2
  have h1 : crc1 p = sum32Spec p := crc1_eq_sum32Spec p hb
  have h2 : crc2 (0xEE :: (be4 (sum32Spec p) ++ p)) =
      xorByteSpec (0xEE :: (be4 (sum32Spec p) ++ p)) :=
    crc2_eq_xorByteSpec _ (h1 ▸ hinner)
  constructor
  · simp only [wrapCommand, claimC7frame, h1, h2]
    rw [if_pos]
    simp [be4]
    omega
  · simp only [claimC7frame]
    rw [List.getLast?_concat]
    simp
    omega

/-- Claim C7 witness: the amended statement applied to the keep-alive ping
payload used as the fixture in the specification. -/
theorem c7_witness :
    wrapCommand [0x12, 0x01, 0, 0, 0, 0x0A] = some (claimC7frame [0x12, 0x01, 0, 0, 0, 0x0A]) ∧
      (claimC7frame [0x12, 0x01, 0, 0, 0, 0x0A]).getLast? =
        some (claimC7frame [0x12, 0x01, 0, 0, 0, 0x0A]).length :=
  c7_amended [0x12, 0x01, 0, 0, 0, 0x0A] (by decide) (by decide)

/-! ## Claim C8: spectrum checksum validation -/

/-- Claim C8: for every spectrum-type frame over bytes, the validator accepts
exactly when the frame has at least 6 bytes and the Xor24 of bytes
`[0, len-3)` equals the last 3 bytes read as a little-endian 24-bit integer;
and every rejected frame emits no record. -/
theorem c8_checksum (f : List Nat) (hb : Bytes f) (ht : isSpectrumType (f.getD 1 0) = true) :
    (validateSpectrumChecksum f = true ↔
      (6 ≤ f.length ∧ checksum3 (f.take (f.length - 3)) =
        f.getD (f.length - 3) 0 + 256 * f.getD (f.length - 2) 0 +
          65536 * f.getD (f.length - 1) 0)) ∧
    (validateSpectrumChecksum f = false → parseFrameE f = .ok none) := by
  have hiff : validateSpectrumChecksum f = true ↔
      (6 ≤ f.length ∧ checksum3 (f.take (f.length - 3)) =
        f.getD (f.length - 3) 0 + 256 * f.getD (f.length - 2) 0 +
          65536 * f.getD (f.length - 1) 0) := by
    simp only [validateSpectrumChecksum]
    rcases Nat.lt_or_ge f.length 6 with h6 | h6
    · rw [if_pos h6]
      constructor
      · intro h; cases h
      · intro h; omega
    · rw [if_neg (by omega)]
      have e0 : (f.drop (f.length - 3)).getD 0 0 = f.getD (f.length - 3) 0 := by
        rw [getD_drop, Nat.add_zero]
      have e1 : (f.drop (f.length - 3)).getD 1 0 = f.getD (f.length - 2) 0 := by
        have h : f.length - 3 + 1 = f.length - 2 := by omega
        rw [getD_drop, h]
      have e2 : (f.drop (f.length - 3)).getD 2 0 = f.getD (f.length - 1) 0 := by
        have h : f.length - 3 + 2 = f.length - 1 := by omega
        rw [getD_drop, h]
      rw [e0, e1, e2, lor_byte3 _ _ _ (getD_lt_of_bytes hb _) (getD_lt_of_bytes hb _)]
      rw [beq_iff_eq]
      constructor
      · intro h
        refine ⟨h6, ?_⟩
        omega
      · intro h
        omega
  refine ⟨hiff, ?_⟩
  intro hfalse
  simp only [parseFrameE]
  rcases Nat.lt_or_ge f.length 4 with h4 | h4
  · rw [if_pos h4]
  · rw [if_neg (by omega)]
    have ht3 : f.getD 1 0 = 0x30 ∨ f.getD 1 0 = 0x31 ∨ f.getD 1 0 = 0x32 := by
      simp only [isSpectrumType, Bool.or_eq_true, beq_iff_eq] at ht
      tauto
    have hn17 : f.getD 1 0 ≠ 0x17 := by rcases ht3 with h | h | h <;> omega
    have hn02 : f.getD 1 0 ≠ 0x02 := by rcases ht3 with h | h | h <;> omega
    rw [if_neg hn17, if_neg hn02, if_pos ht]
    simp only [parseSpectrumE]
    rw [if_neg (by omega), if_pos hfalse]

/-- Claim C8 witness: the equivalence and the rejection property instantiated
at a concrete valid 10-byte type-0x30 frame. -/
theorem c8_witness :
    (validateSpectrumChecksum c8frame = true ↔
      (6 ≤ c8frame.length ∧ checksum3 (c8frame.take (c8frame.length - 3)) =
        c8frame.getD (c8frame.length - 3) 0 + 256 * c8frame.getD (c8frame.length - 2) 0 +
          65536 * c8frame.getD (c8frame.length - 1) 0)) ∧
    (validateSpectrumChecksum c8frame = false → parseFrameE c8frame = .ok none) :=
  c8_checksum c8frame (by decide) (by decide)

/-! ## Claim C2: count-rate checksum validation -/

/-- Claim C2 (counterexample): a 13-byte type-0x17 frame that the source
validator accepts although the acceptance condition asserted by the claim
(low 2 checksum bytes, reversed, against the one-byte window `[len-4, len-3)`)
does not hold; the parser then emits a count-rate record for it. -/
theorem c2_counterexample :
    validateCpsChecksum2b cex2frame = true ∧ claimC2accept cex2frame = false ∧
      parseCps cex2frame = some (.cps 0 0) := by decide

/-- Claim C2 (amended): for every count-rate frame (type 0x17, length at
least 13) over bytes, the validator computes Xor24 over bytes `[1 .. len-3)`
and accepts exactly when the HIGH two bytes of the 24-bit result, in reversed
order (`[mid, high]`), equal the two frame bytes in the window
`[len-4, len-2)`; on mismatch the frame is dropped and no record is
emitted. -/
theorem c2_amended (p : List Nat) (hb : Bytes p) (h13 : 13 ≤ p.length)
    (ht : p.getD 1 0 = 0x17) :
    (validateCpsChecksum2b p = true ↔
      (p.getD (p.length - 4) 0 =
          checksum3 ((p.drop 1).take (p.length - 4)) / 256 % 256 ∧
        p.getD (p.length - 3) 0 =
          checksum3 ((p.drop 1).take (p.length - 4)) / 65536 % 256)) ∧
    (validateCpsChecksum2b p = false → parseCps p = none) := by
  constructor
  · simp only [validateCpsChecksum2b]
    rw [if_neg (by omega)]
    rw [drop_take_two p (p.length - 4) (by omega)]
    have h : p.length - 4 + 1 = p.length - 3 := by omega
    rw [h, beq_iff_eq]
    simp only [List.cons.injEq, and_true]
    constructor
    · intro h2
      exact ⟨h2.1.symm, h2.2.symm⟩
    · intro h2
      exact ⟨h2.1.symm, h2.2.symm⟩
  · intro hfalse
    simp only [parseCps]
    rw [if_neg (by omega), if_neg (not_not_intro ht), if_pos hfalse]

/-- Claim C2 witness: the amended statement applied to the concrete accepted
frame `cex2frame`. -/
theorem c2_witness :
    (validateCpsChecksum2b cex2frame = true ↔
      (cex2frame.getD (cex2frame.length - 4) 0 =
          checksum3 ((cex2frame.drop 1).take (cex2frame.length - 4)) / 256 % 256 ∧
        cex2frame.getD (cex2frame.length - 3) 0 =
          checksum3 ((cex2frame.drop 1).take (cex2frame.length - 4)) / 65536 % 256)) ∧
    (validateCpsChecksum2b cex2frame = false → parseCps cex2frame = none) :=
  c2_amended cex2frame (by decide) (by decide) (by decide)

/-! ## Claim C10: status-frame plausibility gate -/

/-- Claim C10: for every status frame (type 0x02, length at least 6) over
bytes, a Status record is emitted if and only if the battery byte (payload
offset 2) is at most 100 and the temperature (little-endian 16 bits at
payload offset 0, divided by 10, minus 100) lies within `[-40, 80]`. -/
theorem c10_battery (f : List Nat) (hb : Bytes f) (h6 : 6 ≤ f.length)
    (ht : f.getD 1 0 = 0x02) :
    (parseBattery f).isSome = true ↔
      (f.getD 4 0 ≤ 100 ∧
        -40 ≤ ((f.getD 2 0 + 256 * f.getD 3 0 : Nat) : ℚ) / 10 - 100 ∧
        ((f.getD 2 0 + 256 * f.getD 3 0 : Nat) : ℚ) / 10 - 100 ≤ 80) := by
  simp only [parseBattery]
  rw [if_neg (by omega), if_neg (not_not_intro ht)]
  have hm2 : f.getD 2 0 % 256 = f.getD 2 0 := Nat.mod_eq_of_lt (getD_lt_of_bytes hb 2)
  have hm3 : f.getD 3 0 % 256 = f.getD 3 0 := Nat.mod_eq_of_lt (getD_lt_of_bytes hb 3)
  have hm4 : f.getD 4 0 % 256 = f.getD 4 0 := Nat.mod_eq_of_lt (getD_lt_of_bytes hb 4)
  have hraw : (f.getD 2 0 % 256) ||| ((f.getD 3 0 % 256) <<< 8) =
      f.getD 2 0 + 256 * f.getD 3 0 := by
    rw [hm2, hm3, lor2_flip _ _ (getD_lt_of_bytes hb 2)]
  simp only [hraw, hm4]
  split
  · next hcond =>
    simp only [Option.isSome_none, Bool.false_eq_true, false_iff]
    intro hcl
    rcases hcond with h | h | h
    · omega
    · exact absurd h (not_lt.mpr hcl.2.1)
    · exact absurd h (not_lt.mpr hcl.2.2)
  · next hcond =>
    push_neg at hcond
    simp only [Option.isSome_some, true_iff]
    exact ⟨hcond.1, hcond.2.1, hcond.2.2⟩

/-- Claim C10 witness: boundary instances — battery 100 with temperature
exactly -40 is accepted, battery 101 with the same temperature is
rejected. -/
theorem c10_witness :
    (parseBattery [6, 2, 0x58, 0x02, 100, 0]).isSome = true ∧
      (parseBattery [6, 2, 0x58, 0x02, 101, 0]).isSome ≠ true := by
  constructor
  · exact (c10_battery [6, 2, 0x58, 0x02, 100, 0] (by decide) (by decide) (by decide)).mpr
      (by norm_num)
  · intro h
    have hc := (c10_battery [6, 2, 0x58, 0x02, 101, 0] (by decide) (by decide) (by decide)).mp h
    have h101 : (101 : Nat) ≤ 100 := by simpa using hc.1
    omega

end Raysid

namespace Raysid

unseal Rat.mul Rat.inv Rat.add Rat.sub

/-! ## Decode-loop invariants: every inner decoder writes consecutive
channels starting at the current channel cursor, advancing the cursor by
exactly one per write -/

theorem range'_cons2 (s n : Nat) :
    List.range' s (n + 2) = s :: (s + 1) :: List.range' (s + 2) n := by
  rw [show n + 2 = (n + 1) + 1 from rfl, List.range'_succ, List.range'_succ]

theorem range'_append_1 (s m n : Nat) :
    List.range' s m ++ List.range' (s + m) n = List.range' s (m + n) := by
  simpa [Nat.one_mul, Nat.add_comm n m] using List.range'_append s m n 1

theorem decode0_spec (frame : List Nat) (limit : Nat) :
    ∀ rem pos x cur,
      (decode0 frame limit rem pos x cur).x = x + (decode0 frame limit rem pos x cur).ws.length ∧
      (decode0 frame limit rem pos x cur).ws.map Prod.fst =
        List.range' x (decode0 frame limit rem pos x cur).ws.length ∧
      (decode0 frame limit rem pos x cur).ws.length ≤ rem := by
  intro rem
  induction rem using Nat.strong_induction_on with
  | _ rem ih =>
    intro pos x cur
    match rem with
    | 0 => simp [decode0]
    | 1 =>
      simp only [decode0]
      split
      · simp [List.range']
      · simp
    | rem2 + 2 =>
      simp only [decode0]
      split
      · obtain ⟨h1, h2, h3⟩ := ih rem2 (by omega) (pos + 1) (x + 2)
          (cur + sext4 (frame.getD pos 0 % 256 / 16) + sext4 (frame.getD pos 0 % 256 % 16))
        refine ⟨?_, ?_, ?_⟩
        · simp only [List.length_cons]
          omega
        · simp only [List.map_cons, List.length_cons, h2]
          rw [show (decode0 frame limit rem2 (pos + 1) (x + 2)
            (cur + sext4 (frame.getD pos 0 % 256 / 16) +
              sext4 (frame.getD pos 0 % 256 % 16))).ws.length + 1 + 1 =
            (decode0 frame limit rem2 (pos + 1) (x + 2)
              (cur + sext4 (frame.getD pos 0 % 256 / 16) +
                sext4 (frame.getD pos 0 % 256 % 16))).ws.length + 2 from rfl]
          rw [range'_cons2]
        · simp only [List.length_cons]
          omega
      · simp

theorem decode1_spec (frame : List Nat) (limit : Nat) :
    ∀ rem pos x cur,
      (decode1 frame limit rem pos x cur).x = x + (decode1 frame limit rem pos x cur).ws.length ∧
      (decode1 frame limit rem pos x cur).ws.map Prod.fst =
        List.range' x (decode1 frame limit rem pos x cur).ws.length ∧
      (decode1 frame limit rem pos x cur).ws.length ≤ rem := by
  intro rem
  induction rem with
  | zero => intro pos x cur; simp [decode1]
  | succ rem ih =>
    intro pos x cur
    simp only [decode1]
    split
    · obtain ⟨h1, h2, h3⟩ := ih (pos + 1) (x + 1) (cur + sext8 (frame.getD pos 0 % 256))
      refine ⟨?_, ?_, ?_⟩
      · simp only [List.length_cons]
        omega
      · simp only [List.map_cons, List.length_cons, h2]
        rw [List.range'_succ]
      · simp only [List.length_cons]
        omega
    · simp

theorem decode2_spec (frame : List Nat) (limit : Nat) :
    ∀ rem pos x cur,
      (decode2 frame limit rem pos x cur).x = x + (decode2 frame limit rem pos x cur).ws.length ∧
      (decode2 frame limit rem pos x cur).ws.map Prod.fst =
        List.range' x (decode2 frame limit rem pos x cur).ws.length ∧
      (decode2 frame limit rem pos x cur).ws.length ≤ rem := by
  intro rem
  induction rem using Nat.strong_induction_on with
  | _ rem ih =>
    intro pos x cur
    match rem with
    | 0 => simp [decode2]
    | 1 =>
      simp only [decode2]
      split
      · simp [List.range']
      · simp
    | rem2 + 2 =>
      simp only [decode2]
      split
      · split
        · obtain ⟨h1, h2, h3⟩ := ih rem2 (by omega) (pos + 3) (x + 2)
            (cur +
              sext12 ((frame.getD pos 0 <<< 4 ||| frame.getD (pos + 1) 0 >>> 4 % 16) % 4096) +
              sext12 ((frame.getD (pos + 1) 0 % 16) <<< 8 ||| frame.getD (pos + 2) 0 % 256))
          refine ⟨?_, ?_, ?_⟩
          · simp only [List.length_cons]
            omega
          · simp only [List.map_cons, List.length_cons, h2]
            rw [show (decode2 frame limit rem2 (pos + 3) (x + 2)
              (cur +
                sext12 ((frame.getD pos 0 <<< 4 ||| frame.getD (pos + 1) 0 >>> 4 % 16) % 4096) +
                sext12 ((frame.getD (pos + 1) 0 % 16) <<< 8 |||
                  frame.getD (pos + 2) 0 % 256))).ws.length + 1 + 1 =
              (decode2 frame limit rem2 (pos + 3) (x + 2)
                (cur +
                  sext12 ((frame.getD pos 0 <<< 4 ||| frame.getD (pos + 1) 0 >>> 4 % 16) % 4096) +
                  sext12 ((frame.getD (pos + 1) 0 % 16) <<< 8 |||
                    frame.getD (pos + 2) 0 % 256))).ws.length + 2 from rfl]
            rw [range'_cons2]
          · simp only [List.length_cons]
            omega
        · simp [List.range']
      · simp

theorem decode3_spec (frame : List Nat) (limit : Nat) :
    ∀ rem pos x cur,
      (decode3 frame limit rem pos x cur).x = x + (decode3 frame limit rem pos x cur).ws.length ∧
      (decode3 frame limit rem pos x cur).ws.map Prod.fst =
        List.range' x (decode3 frame limit rem pos x cur).ws.length ∧
      (decode3 frame limit rem pos x cur).ws.length ≤ rem := by
  intro rem
  induction rem with
  | zero => intro pos x cur; simp [decode3]
  | succ rem ih =>
    intro pos x cur
    simp only [decode3]
    split
    · obtain ⟨h1, h2, h3⟩ := ih (pos + 1 + 1) (x + 1)
        (cur + sext16 ((frame.getD (pos + 1) 0 % 256) <<< 8 ||| frame.getD pos 0 % 256))
      refine ⟨?_, ?_, ?_⟩
      · simp only [List.length_cons]
        omega
      · simp only [List.map_cons, List.length_cons, h2]
        rw [List.range'_succ]
      · simp only [List.length_cons]
        omega
    · simp

end Raysid

namespace Raysid

/-- Invariant of the outer decode loop: the channel cursor advances by one
per write, the written channels are exactly the consecutive range starting at
the entry cursor, and the final cursor never exceeds
`max x (maxCh + 62)` (a coding group entered just below `maxCh` can write at
most 63 further values before the bound is rechecked). -/
theorem decodeLoop_spec (frame : List Nat) (limit maxCh : Nat) :
    ∀ fuel pos x cur,
      (decodeLoop frame limit maxCh fuel pos x cur).x =
          x + (decodeLoop frame limit maxCh fuel pos x cur).ws.length ∧
      (decodeLoop frame limit maxCh fuel pos x cur).ws.map Prod.fst =
        List.range' x (decodeLoop frame limit maxCh fuel pos x cur).ws.length ∧
      (decodeLoop frame limit maxCh fuel pos x cur).x ≤ max x (maxCh + 62) := by
  intro fuel
  induction fuel with
  | zero =>
    intro pos x cur
    simp [decodeLoop]
  | succ fuel ih =>
    intro pos x cur
    simp only [decodeLoop]
    by_cases hc : pos < limit ∧ pos < frame.length ∧ x < maxCh
    · rw [if_pos hc]
      by_cases hb0 : frame.getD pos 0 = 0
      · rw [if_pos hb0]
        by_cases hg : pos + 3 < limit ∧ pos + 3 < frame.length
        · rw [if_pos hg]
          obtain ⟨h1, h2, h3⟩ := ih (pos + 4) (x + 1)
            (cur + sext24 (frame.getD (pos + 3) 0 <<< 16 ||| frame.getD (pos + 2) 0 <<< 8 |||
              frame.getD (pos + 1) 0))
          refine ⟨?_, ?_, ?_⟩
          · simp only [List.length_cons]
            omega
          · simp only [List.map_cons, List.length_cons, h2]
            rw [List.range'_succ]
          · have hx : x + 1 ≤ maxCh + 62 := by omega
            have := Nat.max_le.mp (le_refl (max (x + 1) (maxCh + 62)))
            have hle : max (x + 1) (maxCh + 62) = maxCh + 62 :=
              Nat.max_eq_right hx
            simp only []
            calc (decodeLoop frame limit maxCh fuel (pos + 4) (x + 1)
                (cur + sext24 (frame.getD (pos + 3) 0 <<< 16 |||
                  frame.getD (pos + 2) 0 <<< 8 ||| frame.getD (pos + 1) 0))).x
                ≤ max (x + 1) (maxCh + 62) := h3
              _ = maxCh + 62 := hle
              _ ≤ max x (maxCh + 62) := Nat.le_max_right _ _
        · rw [if_neg hg]
          simp
      · rw [if_neg hb0]
        by_cases h0 : frame.getD pos 0 % 256 / 64 = 0
        · rw [if_pos h0]
          obtain ⟨k1, k2, k3⟩ := decode0_spec frame limit
            (frame.getD pos 0 % 256 % 64) (pos + 1) x cur
          obtain ⟨h1, h2, h3⟩ := ih
            (decode0 frame limit (frame.getD pos 0 % 256 % 64) (pos + 1) x cur).pos
            (decode0 frame limit (frame.getD pos 0 % 256 % 64) (pos + 1) x cur).x
            (decode0 frame limit (frame.getD pos 0 % 256 % 64) (pos + 1) x cur).cur
          have hcnt : frame.getD pos 0 % 256 % 64 ≤ 63 := by
            have := Nat.mod_lt (frame.getD pos 0 % 256) (show 0 < 64 by norm_num)
            omega
          refine ⟨?_, ?_, ?_⟩
          · simp only [List.length_append]
            omega
          · simp only [List.map_append, List.length_append, k2]
            rw [h2, k1, range'_append_1]
          · have hr1 : (decode0 frame limit (frame.getD pos 0 % 256 % 64)
                (pos + 1) x cur).x ≤ maxCh + 62 := by omega
            simp only []
            calc (decodeLoop frame limit maxCh fuel _ _ _).x
                ≤ max (decode0 frame limit (frame.getD pos 0 % 256 % 64)
                    (pos + 1) x cur).x (maxCh + 62) := h3
              _ = maxCh + 62 := Nat.max_eq_right hr1
              _ ≤ max x (maxCh + 62) := Nat.le_max_right _ _
        · rw [if_neg h0]
          by_cases h1p : frame.getD pos 0 % 256 / 64 = 1
          · rw [if_pos h1p]
            obtain ⟨k1, k2, k3⟩ := decode1_spec frame limit
              (frame.getD pos 0 % 256 % 64) (pos + 1) x cur
            obtain ⟨h1, h2, h3⟩ := ih
              (decode1 frame limit (frame.getD pos 0 % 256 % 64) (pos + 1) x cur).pos
              (decode1 frame limit (frame.getD pos 0 % 256 % 64) (pos + 1) x cur).x
              (decode1 frame limit (frame.getD pos 0 % 256 % 64) (pos + 1) x cur).cur
            have hcnt : frame.getD pos 0 % 256 % 64 ≤ 63 := by
              have := Nat.mod_lt (frame.getD pos 0 % 256) (show 0 < 64 by norm_num)
              omega
            refine ⟨?_, ?_, ?_⟩
            · simp only [List.length_append]
              omega
            · simp only [List.map_append, List.length_append, k2]
              rw [h2, k1, range'_append_1]
            · have hr1 : (decode1 frame limit (frame.getD pos 0 % 256 % 64)
                  (pos + 1) x cur).x ≤ maxCh + 62 := by omega
              simp only []
              calc (decodeLoop frame limit maxCh fuel _ _ _).x
                  ≤ max (decode1 frame limit (frame.getD pos 0 % 256 % 64)
                      (pos + 1) x cur).x (maxCh + 62) := h3
                _ = maxCh + 62 := Nat.max_eq_right hr1
                _ ≤ max x (maxCh + 62) := Nat.le_max_right _ _
          · rw [if_neg h1p]
            by_cases h2p : frame.getD pos 0 % 256 / 64 = 2
            · rw [if_pos h2p]
              obtain ⟨k1, k2, k3⟩ := decode2_spec frame limit
                (frame.getD pos 0 % 256 % 64) (pos + 1) x cur
              obtain ⟨h1, h2, h3⟩ := ih
                (decode2 frame limit (frame.getD pos 0 % 256 % 64) (pos + 1) x cur).pos
                (decode2 frame limit (frame.getD pos 0 % 256 % 64) (pos + 1) x cur).x
                (decode2 frame limit (frame.getD pos 0 % 256 % 64) (pos + 1) x cur).cur
              have hcnt : frame.getD pos 0 % 256 % 64 ≤ 63 := by
                have := Nat.mod_lt (frame.getD pos 0 % 256) (show 0 < 64 by norm_num)
                omega
              refine ⟨?_, ?_, ?_⟩
              · simp only [List.length_append]
                omega
              · simp only [List.map_append, List.length_append, k2]
                rw [h2, k1, range'_append_1]
              · have hr1 : (decode2 frame limit (frame.getD pos 0 % 256 % 64)
                    (pos + 1) x cur).x ≤ maxCh + 62 := by omega
                simp only []
                calc (decodeLoop frame limit maxCh fuel _ _ _).x
                    ≤ max (decode2 frame limit (frame.getD pos 0 % 256 % 64)
                        (pos + 1) x cur).x (maxCh + 62) := h3
                  _ = maxCh + 62 := Nat.max_eq_right hr1
                  _ ≤ max x (maxCh + 62) := Nat.le_max_right _ _
            · rw [if_neg h2p]
              by_cases h3p : frame.getD pos 0 % 256 / 64 = 3
              · rw [if_pos h3p]
                obtain ⟨k1, k2, k3⟩ := decode3_spec frame limit
                  (frame.getD pos 0 % 256 % 64) (pos + 1) x cur
                obtain ⟨h1, h2, h3⟩ := ih
                  (decode3 frame limit (frame.getD pos 0 % 256 % 64) (pos + 1) x cur).pos
                  (decode3 frame limit (frame.getD pos 0 % 256 % 64) (pos + 1) x cur).x
                  (decode3 frame limit (frame.getD pos 0 % 256 % 64) (pos + 1) x cur).cur
                have hcnt : frame.getD pos 0 % 256 % 64 ≤ 63 := by
                  have := Nat.mod_lt (frame.getD pos 0 % 256) (show 0 < 64 by norm_num)
                  omega
                refine ⟨?_, ?_, ?_⟩
                · simp only [List.length_append]
                  omega
                · simp only [List.map_append, List.length_append, k2]
                  rw [h2, k1, range'_append_1]
                · have hr1 : (decode3 frame limit (frame.getD pos 0 % 256 % 64)
                      (pos + 1) x cur).x ≤ maxCh + 62 := by omega
                  simp only []
                  calc (decodeLoop frame limit maxCh fuel _ _ _).x
                      ≤ max (decode3 frame limit (frame.getD pos 0 % 256 % 64)
                          (pos + 1) x cur).x (maxCh + 62) := h3
                    _ = maxCh + 62 := Nat.max_eq_right hr1
                    _ ≤ max x (maxCh + 62) := Nat.le_max_right _ _
              · rw [if_neg h3p]
                simp
    · rw [if_neg hc]
      simp

end Raysid

namespace Raysid

unseal Rat.mul Rat.inv Rat.add Rat.sub

/-- Shape of a successful spectrum parse: the record is built from the
initial write at channel `startCh / div` followed by the decode-loop writes,
and the loop result satisfies the decode-loop invariants. -/
theorem parseSpectrumE_shape (f : List Nat) (r : Record)
    (hr : parseSpectrumE f = .ok (some r)) :
    ∃ dr : DRes,
      specWrites r =
        ((startChOf f / divOf (f.getD 1 0), ((curValOf f : Nat) : Int)) :: dr.ws).map
          (fun p => (p.1, (p.2 : ℚ) / (divOf (f.getD 1 0) : ℚ))) ∧
      dr.x = (startChOf f / divOf (f.getD 1 0) + 1) + dr.ws.length ∧
      dr.ws.map Prod.fst =
        List.range' (startChOf f / divOf (f.getD 1 0) + 1) dr.ws.length ∧
      dr.x ≤ max (startChOf f / divOf (f.getD 1 0) + 1)
        (1800 / divOf (f.getD 1 0) + 10 + 62) ∧
      startChOf f ≤ 2000 := by
  simp only [parseSpectrumE] at hr
  by_cases h0 : f.length = 0
  · rw [if_pos h0] at hr
    cases hr
  · rw [if_neg h0] at hr
    by_cases hv : validateSpectrumChecksum f = false
    · rw [if_pos hv] at hr
      simp at hr
    · rw [if_neg hv] at hr
      by_cases hs : 2000 < startChOf f
      · rw [if_pos hs] at hr
        simp at hr
      · rw [if_neg hs] at hr
        by_cases h7 : f.length < 7
        · rw [if_pos h7] at hr
          cases hr
        · rw [if_neg h7] at hr
          have hrr : Record.spectrum
              (((startChOf f / divOf (f.getD 1 0), ((curValOf f : Nat) : Int)) ::
                (decodeLoop f ((if f.getD 0 0 = 0 then 256 else f.getD 0 0) - 3)
                  (1800 / divOf (f.getD 1 0) + 10)
                  ((if f.getD 0 0 = 0 then 256 else f.getD 0 0) - 3 + 1) 7
                  (startChOf f / divOf (f.getD 1 0) + 1) ((curValOf f : Nat) : Int)).ws).map
                (fun p => (p.1, (p.2 : ℚ) / (divOf (f.getD 1 0) : ℚ))))
              (decodeLoop f ((if f.getD 0 0 = 0 then 256 else f.getD 0 0) - 3)
                (1800 / divOf (f.getD 1 0) + 10)
                ((if f.getD 0 0 = 0 then 256 else f.getD 0 0) - 3 + 1) 7
                (startChOf f / divOf (f.getD 1 0) + 1) ((curValOf f : Nat) : Int)).x
              (divOf (f.getD 1 0)) = r :=
            Option.some.inj (Except.ok.inj hr)
          obtain ⟨h1, h2, h3⟩ := decodeLoop_spec f
            ((if f.getD 0 0 = 0 then 256 else f.getD 0 0) - 3)
            (1800 / divOf (f.getD 1 0) + 10)
            ((if f.getD 0 0 = 0 then 256 else f.getD 0 0) - 3 + 1) 7
            (startChOf f / divOf (f.getD 1 0) + 1) ((curValOf f : Nat) : Int)
          refine ⟨decodeLoop f ((if f.getD 0 0 = 0 then 256 else f.getD 0 0) - 3)
            (1800 / divOf (f.getD 1 0) + 10)
            ((if f.getD 0 0 = 0 then 256 else f.getD 0 0) - 3 + 1) 7
            (startChOf f / divOf (f.getD 1 0) + 1) ((curValOf f : Nat) : Int),
            ?_, h1, h2, h3, by omega⟩
          rw [← hrr]
          rfl

end Raysid

namespace Raysid

unseal Rat.mul Rat.inv Rat.add Rat.sub

/-! ## Claim C5: spectrum payload layout -/

/-- Claim C5 (counterexample): a checksum-valid type-0x31 frame (divisor 3)
with start bytes reading 3 and initial value 6.  The claim predicts the bin
entry `(3, 6)` (value at the starting channel taken verbatim), but the source
writes `(1, 2)`: channel `3 / 3` and value `6 / 3`. -/
theorem c5_counterexample :
    parseSpectrumE cex5frame = .ok (some (.spectrum [(1, 2)] 2 3)) ∧
      startChOf cex5frame = 3 ∧ curValOf cex5frame = 6 ∧
      ((1 : Nat), (2 : ℚ)) ≠ ((3 : Nat), (6 : ℚ)) := by decide

/-- Claim C5 (amended): for every checksum-validated spectrum frame over
bytes, the starting compressed channel is `startCh / divisor` where `startCh`
is the little-endian 16-bit value at bytes [2,3] (the frame is rejected,
emitting nothing, if `startCh` exceeds 2000); the first bin entry is that
channel with value `initial-absolute-value / divisor` (initial value
assembled big-endian from offsets 6, 5, 4); and the bin insertions occupy
consecutive channel indices from the starting compressed channel on. -/
theorem c5_amended (f : List Nat) (hb : Bytes f) :
    (∀ r, parseSpectrumE f = .ok (some r) →
      specChannels r =
        List.range' (startChOf f / divOf (f.getD 1 0)) (specChannels r).length ∧
      (specWrites r).head? = some (startChOf f / divOf (f.getD 1 0),
        ((65536 * f.getD 6 0 + 256 * f.getD 5 0 + f.getD 4 0 : Nat) : ℚ) /
          (divOf (f.getD 1 0) : ℚ)) ∧
      startChOf f = f.getD 2 0 + 256 * f.getD 3 0 ∧ startChOf f ≤ 2000) ∧
    (1 ≤ f.length → 2000 < startChOf f → parseSpectrumE f = .ok none) := by
  constructor
  · intro r hr
    obtain ⟨dr, hws, hx, hmap, hbd, hle⟩ := parseSpectrumE_shape f r hr
    have hcur : curValOf f = 65536 * f.getD 6 0 + 256 * f.getD 5 0 + f.getD 4 0 := by
      unfold curValOf
      rw [lor_byte3 _ _ _ (getD_lt_of_bytes hb 5) (getD_lt_of_bytes hb 4)]
    have hcomp : (Prod.fst ∘ fun p : Nat × Int =>
        ((p.1 : Nat), ((p.2 : ℚ) / (divOf (f.getD 1 0) : ℚ)))) = Prod.fst := rfl
    refine ⟨?_, ?_, ?_, hle⟩
    · simp only [specChannels, hws, List.map_map, hcomp, List.map_cons, List.length_cons]
      rw [hmap, ← List.range'_succ]
      simp [List.length_range']
    · simp only [hws, List.map_cons, List.head?_cons, hcur]
      norm_num
    · unfold startChOf
      rw [lor2_flip _ _ (getD_lt_of_bytes hb 2)]
  · intro h1 h2
    simp only [parseSpectrumE]
    rw [if_neg (by omega)]
    by_cases hv : validateSpectrumChecksum f = false
    · rw [if_pos hv]
    · rw [if_neg hv, if_pos h2]

/-- Claim C5 witness: the amended statement instantiated at a concrete valid
frame (start channel 0, divisor 1, initial value 9) and, for the rejection
conjunct, at a chunk whose start bytes read 2001. -/
theorem c5_witness :
    (specChannels (Record.spectrum [(0, 9)] 1 1) =
        List.range' (startChOf c8frame / divOf (c8frame.getD 1 0))
          (specChannels (Record.spectrum [(0, 9)] 1 1)).length ∧
      (specWrites (Record.spectrum [(0, 9)] 1 1)).head? =
        some (startChOf c8frame / divOf (c8frame.getD 1 0),
          ((65536 * c8frame.getD 6 0 + 256 * c8frame.getD 5 0 + c8frame.getD 4 0 : Nat) : ℚ) /
            (divOf (c8frame.getD 1 0) : ℚ)) ∧
      startChOf c8frame = c8frame.getD 2 0 + 256 * c8frame.getD 3 0 ∧
      startChOf c8frame ≤ 2000) ∧
    parseSpectrumE c5wframe = .ok none :=
  ⟨(c5_amended c8frame (by decide)).1 (Record.spectrum [(0, 9)] 1 1) (by decide),
    (c5_amended c5wframe (by decide)).2 (by decide) (by decide)⟩

/-! ## Claim C6: decode-loop channel bound -/

/-- Claim C6 (counterexample): a checksum-valid type-0x30 frame (divisor 1)
with start channel 2000.  The decoded bin map contains channel 2000, which
exceeds the bound `1800 / divisor + 10 = 1810` asserted by the claim: the
start-channel gate allows indices up to 2000 and the initial write is not
subject to the loop bound. -/
theorem c6_counterexample :
    parseSpectrumE cex6frame = .ok (some (.spectrum [(2000, 1)] 2001 1)) ∧
      divOf (cex6frame.getD 1 0) = 1 ∧ 1800 / 1 + 10 < 2000 := by decide

/-- Claim C6 (amended): the decode loop rechecks the channel bound
`1800 / divisor + 10` only between coding groups (a group entered just below
the bound may write up to 62 channels past it), and the starting channel may
itself be as large as `2000 / divisor`; consequently every channel index
present in the emitted bin map is at most
`max (startCh / divisor) (1800 / divisor + 71)`. -/
theorem c6_amended (f : List Nat) (r : Record) (hr : parseSpectrumE f = .ok (some r)) :
    (specChannels r).all (fun ch => decide (ch ≤
      max (startChOf f / divOf (f.getD 1 0)) (1800 / divOf (f.getD 1 0) + 71))) = true := by
  obtain ⟨dr, hws, hx, hmap, hbd, hle⟩ := parseSpectrumE_shape f r hr
  have hcomp : (Prod.fst ∘ fun p : Nat × Int =>
      ((p.1 : Nat), ((p.2 : ℚ) / (divOf (f.getD 1 0) : ℚ)))) = Prod.fst := rfl
  have hch : specChannels r =
      List.range' (startChOf f / divOf (f.getD 1 0)) (dr.ws.length + 1) := by
    simp only [specChannels, hws, List.map_map, hcomp, List.map_cons]
    rw [hmap, ← List.range'_succ]
  rw [hch, List.all_eq_true]
  intro ch hch2
  rw [decide_eq_true_eq]
  have hmem := List.mem_range'_1.mp hch2
  have hxbound : startChOf f / divOf (f.getD 1 0) + dr.ws.length ≤
      max (startChOf f / divOf (f.getD 1 0)) (1800 / divOf (f.getD 1 0) + 71) := by
    rcases Nat.le_total (startChOf f / divOf (f.getD 1 0) + 1)
      (1800 / divOf (f.getD 1 0) + 10 + 62) with hcase | hcase
    · rw [Nat.max_eq_right hcase] at hbd
      have : startChOf f / divOf (f.getD 1 0) + dr.ws.length ≤
          1800 / divOf (f.getD 1 0) + 71 := by omega
      exact le_trans this (Nat.le_max_right _ _)
    · rw [Nat.max_eq_left hcase] at hbd
      have : startChOf f / divOf (f.getD 1 0) + dr.ws.length ≤
          startChOf f / divOf (f.getD 1 0) := by omega
      exact le_trans this (Nat.le_max_left _ _)
  omega

/-- Claim C6 witness: the amended bound instantiated at a concrete decoded
frame. -/
theorem c6_witness :
    (specChannels (Record.spectrum [(0, 9)] 1 1)).all (fun ch => decide (ch ≤
      max (startChOf c8frame / divOf (c8frame.getD 1 0))
        (1800 / divOf (c8frame.getD 1 0) + 71))) = true :=
  c6_amended c8frame (Record.spectrum [(0, 9)] 1 1) (by decide)

end Raysid

namespace Raysid

unseal Rat.mul Rat.inv Rat.add Rat.sub

theorem getD_append_left (l l2 : List Nat) (i : Nat) (h : i < l.length) :
    (l ++ l2).getD i 0 = l.getD i 0 := by
  simp [List.getD, List.getElem?_append, h]

/-! ## Handler reduction lemmas -/

/-- When neither the timeout nor the desynchronization reset fires, the
handler is `handleCore` on the unchanged state. -/
theorem handleNotification_no_reset (b : List Nat) (e st t : Nat) (c : List Nat)
    (hto : ¬(0 < e ∧ 500 < t - st))
    (hde : ¬(0 < e ∧ isNewPacket c = true ∧ 10 < c.length)) :
    handleNotification (RState.mk b e st) t c = handleCore (RState.mk b e st) t c := by
  simp only [handleNotification]
  rw [if_neg hto, if_neg hde]

/-- When the timeout reset fires, the handler is `handleCore` on the cleared
state. -/
theorem handleNotification_timeout_reset (b : List Nat) (e st t : Nat) (c : List Nat)
    (hasm : 0 < e) (ht : 500 < t - st) :
    handleNotification (RState.mk b e st) t c = handleCore (RState.mk [] 0 st) t c := by
  simp only [handleNotification]
  have hpos : 0 < e ∧ 500 < t - st := ⟨hasm, ht⟩
  rw [if_pos hpos, if_neg (by simp)]

/-- When the desynchronization reset fires (no timeout, a new-packet chunk
longer than 10 bytes), the handler is `handleCore` on the cleared state. -/
theorem handleNotification_desync_reset (b : List Nat) (e st t : Nat) (c : List Nat)
    (hasm : 0 < e) (ht : ¬(500 < t - st))
    (hnew : isNewPacket c = true) (hlen : 10 < c.length) :
    handleNotification (RState.mk b e st) t c = handleCore (RState.mk [] 0 st) t c := by
  simp only [handleNotification]
  have hneg : ¬(0 < e ∧ 500 < t - st) := fun h => ht h.2
  have hpos : 0 < e ∧ isNewPacket c = true ∧ 10 < c.length := ⟨hasm, hnew, hlen⟩
  rw [if_neg hneg, if_pos hpos]

/-- From the idle state, a chunk of at least 2 bytes with a spectrum type tag
and length byte 0 starts buffering a 256-byte frame. -/
theorem handleCore_start (st now : Nat) (c : List Nat) (h2 : 2 ≤ c.length)
    (hsp : isSpectrumType (c.getD 1 0) = true) (h0 : c.getD 0 0 = 0) :
    handleCore (RState.mk [] 0 st) now c = .ok (RState.mk c 256 now, []) := by
  simp only [handleCore]
  have hyes : 2 ≤ c.length ∧ isSpectrumType (c.getD 1 0) = true := ⟨h2, hsp⟩
  rw [if_neg (by simp), if_pos hyes, if_pos h0]

/-! ## Claim C9: reassembly timeout -/

/-- Claim C9: while a spectrum assembly is in progress, a chunk arriving more
than 500 ms after the pending frame started discards the pending buffer
before any other processing and is handled exactly as if the reassembler had
been Idle (same emitted records, same resulting state); in particular the
discarded partial frame never produces a record. -/
theorem c9_timeout (s : RState) (t : Nat) (c : List Nat)
    (hasm : 0 < s.expectedLen) (ht : 500 < t - s.startTime) :
    handleNotification s t c = handleNotification (RState.mk [] 0 s.startTime) t c := by
  obtain ⟨b, e, st⟩ := s
  rw [handleNotification_timeout_reset b e st t c hasm ht,
    handleNotification_no_reset [] 0 st t c (by simp) (by simp)]

/-- Claim C9 witness: the timeout equality instantiated at a concrete
assembling state and a chunk arriving 501 ms later. -/
theorem c9_witness :
    handleNotification s40 501 c40 = handleNotification (RState.mk [] 0 s40.startTime) 501 c40 :=
  c9_timeout s40 501 c40 (by decide) (by decide)

/-! ## Claim C4: desynchronization recovery -/

/-- Claim C4 (counterexample): a chunk of length exactly 10 that satisfies
the new-packet heuristic is appended to the pending buffer (the source resets
only for chunks strictly longer than 10 bytes), so the pending frame is not
discarded and the chunk is not handled as from Idle, contradicting the
claim for 10-byte chunks. -/
theorem c4_counterexample :
    handleNotification s40 0 c40 = .ok (RState.mk ([0, 0x30, 0] ++ c40) 256 0, []) ∧
      isNewPacket c40 = true ∧ c40.length = 10 ∧
      handleNotification (RState.mk [] 0 s40.startTime) 0 c40 = .ok (RState.mk [] 0 0, []) ∧
      handleNotification s40 0 c40 ≠
        handleNotification (RState.mk [] 0 s40.startTime) 0 c40 := by decide

/-- Claim C4 (amended): while a spectrum assembly is in progress and not
timed out, a chunk STRICTLY LONGER than 10 bytes whose first two bytes form a
recognized type tag with declared length in [4, 256] (length byte 0 meaning
256) causes the pending partial frame to be discarded and the chunk to be
handled exactly as if the reassembler had been Idle. -/
theorem c4_desync (s : RState) (t : Nat) (c : List Nat)
    (hasm : 0 < s.expectedLen) (ht : t - s.startTime ≤ 500)
    (hnew : isNewPacket c = true) (hlen : 10 < c.length) :
    handleNotification s t c = handleNotification (RState.mk [] 0 s.startTime) t c := by
  obtain ⟨b, e, st⟩ := s
  have hasm2 : 0 < e := hasm
  have ht2 : t - st ≤ 500 := ht
  rw [handleNotification_desync_reset b e st t c hasm2 (by omega) hnew hlen,
    handleNotification_no_reset [] 0 st t c (by simp) (by simp)]

/-- Claim C4 witness: the desynchronization equality instantiated at a
concrete assembling state and an 11-byte new-packet chunk. -/
theorem c4_witness :
    handleNotification s40 0 c41 = handleNotification (RState.mk [] 0 s40.startTime) 0 c41 :=
  c4_desync s40 0 c41 (by decide) (by decide) (by decide) (by decide)

/-! ## Claim C1: no exception across the decoder boundary -/

/-- Claim C1 (refuting evaluation): delivering the chunks
`[06 30 00 00]` and `[30 06]` reassembles the 6-byte frame
`[06 30 00 00 30 06]`, whose Xor24 checksum is valid; `_parse_spectrum` then
reads `frame[6]` and the Python raises `IndexError` — the decode attempt
neither returns a record nor "no record".  The error value models exactly
that uncaught exception. -/
theorem c1_decoder_exception :
    runChunks (RState.mk [] 0 0) [(0, [6, 0x30, 0, 0]), (0, [0x30, 6])] = .error () ∧
      validateSpectrumChecksum [6, 0x30, 0, 0, 0x30, 6] = true ∧
      parseSpectrumE [6, 0x30, 0, 0, 0x30, 6] = .error () := by decide

/-! ## Claim C3: fragmentation invariance of reassembly -/

/-- A run over chunks that are all empty leaves the idle state unchanged and
emits nothing. -/
theorem runChunks_empty_chunks (t0 : Nat) :
    ∀ cs : List (Nat × List Nat), (∀ p ∈ cs, p.2 = ([] : List Nat)) →
      runChunks (RState.mk [] 0 t0) cs = .ok (RState.mk [] 0 t0, []) := by
  intro cs
  induction cs with
  | nil => intro _; rfl
  | cons p rest ih =>
    intro h
    obtain ⟨t, c⟩ := p
    have hp : c = [] := h (t, c) (List.mem_cons_self _ _)
    subst hp
    have hh : handleNotification (RState.mk [] 0 t0) t [] = .ok (RState.mk [] 0 t0, []) := rfl
    simp only [runChunks, hh, ih (fun q hq => h q (List.mem_cons_of_mem _ hq))]
    rfl

/-- While a 256-byte assembly is in progress, feeding the remaining bytes of
the frame as further chunks (none of which triggers the desynchronization or
timeout resets) completes the frame and emits exactly its parse result. -/
theorem runChunks_assembling (f : List Nat) (r : Record) (t0 : Nat)
    (hflen : f.length = 256) (hr : parseFrameE f = .ok (some r)) :
    ∀ cs : List (Nat × List Nat), ∀ buf : List Nat,
      cs ≠ [] →
      buf ++ (cs.map Prod.snd).flatten = f →
      (∀ p ∈ cs, ¬(isNewPacket p.2 = true ∧ 10 < p.2.length) ∧ p.1 - t0 ≤ 500) →
      runChunks (RState.mk buf 256 t0) cs = .ok (RState.mk [] 0 t0, [r]) := by
  intro cs
  induction cs with
  | nil => intro buf hne _ _; cases hne rfl
  | cons p rest ih =>
    intro buf _ hjoin hcond
    obtain ⟨t, c⟩ := p
    have hct : ¬(isNewPacket c = true ∧ 10 < c.length) :=
      (hcond (t, c) (List.mem_cons_self _ _)).1
    have htm : t - t0 ≤ 500 := (hcond (t, c) (List.mem_cons_self _ _)).2
    have hjoin2 : (buf ++ c) ++ (rest.map Prod.snd).flatten = f := by
      simpa [List.append_assoc] using hjoin
    have hh : handleNotification (RState.mk buf 256 t0) t c =
        handleCore (RState.mk buf 256 t0) t c :=
      handleNotification_no_reset buf 256 t0 t c (fun h2 => by omega)
        (fun h2 => hct ⟨h2.2.1, h2.2.2⟩)
    simp only [runChunks, hh]
    by_cases hcomp : 256 ≤ (buf ++ c).length
    · have hrest : (rest.map Prod.snd).flatten = [] := by
        have hlen1 : (buf ++ c).length + ((rest.map Prod.snd).flatten).length = 256 := by
          rw [← List.length_append, hjoin2, hflen]
        cases hflat : (rest.map Prod.snd).flatten with
        | nil => rfl
        | cons a l =>
          exfalso
          rw [hflat] at hlen1
          have hL : 1 ≤ (a :: l).length := by simp
          omega
      have hbc : buf ++ c = f := by
        rw [← hjoin2, hrest, List.append_nil]
      have hcore : handleCore (RState.mk buf 256 t0) t c = .ok (RState.mk [] 0 t0, [r]) := by
        simp only [handleCore]
        have hpos : (0:Nat) < 256 := by omega
        rw [if_pos hpos, if_pos (show (256:Nat) ≤ (buf ++ c).length from hcomp), hbc,
          show f.take 256 = f from hflen ▸ List.take_length f, hr]
        rfl
      have hallnil : ∀ q ∈ rest, q.2 = ([] : List Nat) := by
        intro q hq
        have hmem : q.2 ∈ rest.map Prod.snd := List.mem_map_of_mem Prod.snd hq
        exact (List.flatten_eq_nil_iff.mp hrest) q.2 hmem
      simp only [hcore, runChunks_empty_chunks t0 rest hallnil, List.append_nil]
    · have hcore : handleCore (RState.mk buf 256 t0) t c =
          .ok (RState.mk (buf ++ c) 256 t0, []) := by
        simp only [handleCore]
        have hpos : (0:Nat) < 256 := by omega
        rw [if_pos hpos, if_neg (show ¬(256:Nat) ≤ (buf ++ c).length from hcomp)]
      have hrestne : rest ≠ [] := by
        intro hreq
        subst hreq
        have hbf : buf ++ c = f := by simpa using hjoin2
        rw [← hbf] at hflen
        omega
      simp only [hcore, ih (buf ++ c) hrestne hjoin2
        (fun q hq => hcond q (List.mem_cons_of_mem _ hq)), List.nil_append]

set_option maxRecDepth 8000 in
/-- Claim C3 (counterexample): a valid 256-byte spectrum frame that decodes
to a record when parsed whole, fed through the reassembler as N = 1 chunk,
emits NOTHING — the start path only buffers, and completion is checked only
when a further chunk arrives.  Fed as N = 2 chunks cut after 1 byte, it also
emits nothing: the 1-byte first chunk is dropped by the frame-length gate and
never starts an assembly.  Both contradict the claim that every fragmentation
into N = 1, 2, 13 chunks yields the same single record. -/
theorem c3_counterexample :
    runChunks (RState.mk [] 0 0) [(0, cex3frame)] = .ok (RState.mk cex3frame 256 0, []) ∧
      parseFrameE cex3frame = .ok (some c3record) ∧
      runChunks (RState.mk [] 0 0) [(0, cex3frame.take 1), (0, cex3frame.drop 1)] =
        .ok (RState.mk [] 0 0, []) :=
  ⟨by decide, rfl, by decide⟩

/-- Claim C3 (amended): for every valid 256-byte spectrum frame split into
N = 2 or N = 13 consecutive chunks — with the first chunk at least 2 bytes,
no timeout between chunks, and no later chunk forming a plausible new-frame
header longer than 10 bytes — the reassembler emits, with the final chunk,
exactly the record obtained by parsing the whole frame, regardless of the
fragmentation boundaries.  (With N = 1 the frame is only buffered and no
record is emitted, and a first chunk shorter than 2 bytes is dropped: both
restrictions are forced by the counterexample.) -/
theorem c3_amended (f : List Nat) (cs : List (Nat × List Nat)) (r : Record)
    (hlen : f.length = 256) (h0 : f.getD 0 0 = 0)
    (h1 : isSpectrumType (f.getD 1 0) = true)
    (hjoin : (cs.map Prod.snd).flatten = f)
    (hN : cs.length = 2 ∨ cs.length = 13)
    (hfirst : 2 ≤ ((cs.headD (0, [])).2).length)
    (htimes : ∀ p ∈ cs, p.1 - (cs.headD (0, [])).1 ≤ 500)
    (hmid : ∀ p ∈ cs.tail, ¬(isNewPacket p.2 = true ∧ 10 < p.2.length))
    (hr : parseFrameE f = .ok (some r)) :
    runChunks (RState.mk [] 0 0) cs = .ok (RState.mk [] 0 (cs.headD (0, [])).1, [r]) := by
  obtain ⟨t1, c1, rest, rfl⟩ : ∃ t1 c1 rest, cs = (t1, c1) :: rest := by
    cases cs with
    | nil => simp at hN
    | cons a l => exact ⟨a.1, a.2, l, by rw [Prod.mk.eta]⟩
  have hc1f : c1 ++ (rest.map Prod.snd).flatten = f := by simpa using hjoin
  have hc1len : 2 ≤ c1.length := by simpa using hfirst
  have hc1get : ∀ i, i < c1.length → c1.getD i 0 = f.getD i 0 := by
    intro i hi
    rw [← hc1f, getD_append_left _ _ _ hi]
  have hg0 : c1.getD 0 0 = 0 := by rw [hc1get 0 (by omega)]; exact h0
  have hg1 : isSpectrumType (c1.getD 1 0) = true := by rw [hc1get 1 (by omega)]; exact h1
  have hh1 : handleNotification (RState.mk [] 0 0) t1 c1 = .ok (RState.mk c1 256 t1, []) := by
    rw [handleNotification_no_reset [] 0 0 t1 c1 (by simp) (by simp),
      handleCore_start 0 t1 c1 hc1len hg1 hg0]
  have hrestne : rest ≠ [] := by
    intro hreq
    subst hreq
    simp at hN
  have hA := runChunks_assembling f r t1 hlen hr rest c1 hrestne hc1f
    (fun q hq => ⟨hmid q (by simpa using hq),
      by have := htimes q (List.mem_cons_of_mem _ hq); simpa using this⟩)
  simp only [runChunks, hh1, hA, List.nil_append, List.headD_cons]

set_option maxRecDepth 8000 in
/-- Claim C3 witness: the amended statement instantiated at the concrete
256-byte frame `cex3frame` split into two chunks of 100 and 156 bytes. -/
theorem c3_witness :
    runChunks (RState.mk [] 0 0) [(0, cex3frame.take 100), (0, cex3frame.drop 100)] =
      .ok (RState.mk [] 0
        (([(0, cex3frame.take 100), (0, cex3frame.drop 100)].headD (0, [])).1), [c3record]) :=
  c3_amended cex3frame [(0, cex3frame.take 100), (0, cex3frame.drop 100)] c3record
    (by decide) (by decide) (by decide)
    (by simp [List.take_append_drop])
    (Or.inl (by decide)) (by decide) (by decide) (by decide) rfl

end Raysid
